import Mathlib

/-!
# Verification of the telegram-llm-rewriter message-processing runtime

Shallow embedding of the core runtime found in `src/app.rs` (together with the
small helpers it uses from `src/context.rs`, `src/config.rs` and `src/llm.rs`):

* the `ContextCache` (bounded per-scope history with hydration flags),
* the `DedupeCache` (TTL-bounded set of already-edited message ids),
* UTF-16 truncation (`truncate_to_telegram_limit`),
* the per-message pipeline `process_message`,
* the orchestrator's new-message branch (historical catch-up skip),
* the hot-config reload step of `spawn_config_watcher`.

Rust strings become Lean `String`/`List Char`; `i64`/`i32` become `Int`;
`usize`/timestamps become `Nat`; `HashMap`/`HashSet`-valued cache fields become
total functions from the key type (an absent key is the empty value), except the
dedupe map whose physical contents matter and which is kept as an association
list with unique keys; fallible external calls (history fetch, LLM rewrite,
message edit) are oracle parameters of `Except` type, awaited results of the
external collaborators.
-/

/-- `TELEGRAM_MESSAGE_MAX_CHARS` from `app.rs`. -/
def TELEGRAM_MESSAGE_MAX_CHARS : Nat := 4096

/-- `DEDUPE_TTL_SECONDS` from `app.rs`. -/
def DEDUPE_TTL_SECONDS : Nat := 300

/-! ## Rust string trimming

`str::trim` removes leading and trailing characters with the Unicode
`White_Space` property. -/

/-- The Unicode `White_Space` code points used by Rust's `char::is_whitespace`. -/
def rust_whitespace_codes : List Nat :=
  [0x9, 0xA, 0xB, 0xC, 0xD, 0x20, 0x85, 0xA0, 0x1680,
   0x2000, 0x2001, 0x2002, 0x2003, 0x2004, 0x2005, 0x2006, 0x2007, 0x2008,
   0x2009, 0x200A, 0x2028, 0x2029, 0x202F, 0x205F, 0x3000]

/-- Whether a character has the Unicode `White_Space` property. -/
def is_rust_whitespace (c : Char) : Bool := rust_whitespace_codes.contains c.toNat

/-- `str::trim` on the character list: drop whitespace from both ends. -/
def rustTrimList (l : List Char) : List Char :=
  ((l.dropWhile is_rust_whitespace).reverse.dropWhile is_rust_whitespace).reverse

/-- `str::trim` on a string. -/
def rustTrim (s : String) : String := String.mk (rustTrimList s.data)

/-! ## Data model (`src/context.rs`, `src/app.rs`) -/

/-- `ContextMessage` from `context.rs`. -/
structure ContextMessage where
  sender_name : String
  text : String
deriving DecidableEq

/-- `resolve_sender_name` from `context.rs`: outgoing messages are labelled
`"Me"`; otherwise the peer name is used unless absent or blank, in which case
`"Unknown"`. -/
def resolve_sender_name (outgoing : Bool) (peer_name : Option String) : String :=
  if outgoing then "Me"
  else
    match peer_name with
    | some name => if (rustTrim name).isEmpty then "Unknown" else name
    | none => "Unknown"

/-- `ContextScope` from `app.rs`: a conversation plus optional topic root. -/
structure ContextScope where
  chat_id : Int
  topic_root_id : Option Int
deriving DecidableEq

/-- `CachedContextMessage` from `app.rs`. -/
structure CachedContextMessage where
  message_id : Int
  message : ContextMessage
deriving DecidableEq

/-- The incoming telegram message fields the runtime reads: id, raw text,
whether it was authored by the operator (`outgoing`), the sender's display
name, and the unix timestamp (`message.date()`). -/
structure MsgInput where
  id : Int
  text : String
  outgoing : Bool
  peer_name : Option String
  date : Int
deriving DecidableEq

/-! ## Context cache (`ContextCache` in `app.rs`)

`entries : HashMap<ContextScope, VecDeque<CachedContextMessage>>` is embedded
as a total function (an absent key is the empty sequence, which no operation
distinguishes from a present-but-empty one), and the `HashSet` of hydrated
scopes as its membership function. -/

/-- One `ContextCache`. -/
structure ContextCache where
  per_chat_limit : Nat
  entries : ContextScope → List CachedContextMessage
  hydrated_scopes : ContextScope → Bool

/-- `ContextCache::new`. -/
def ContextCache.new (per_chat_limit : Nat) : ContextCache :=
  ⟨per_chat_limit, fun _ => [], fun _ => false⟩

/-- The source trims a scope's deque with
`while messages.len() > limit { messages.pop_front(); }`: it removes front
elements until the length is within the limit, i.e. drops the first
`length - limit` elements. -/
def trimFront (limit : Nat) (l : List α) : List α := l.drop (l.length - limit)

/-- `ContextCache::set_per_chat_limit`: store the new cap and trim every
existing scope's sequence from the front. -/
def ContextCache.set_per_chat_limit (c : ContextCache) (limit : Nat) : ContextCache :=
  { c with
    per_chat_limit := limit
    entries := fun s => trimFront limit (c.entries s) }

/-- `ContextCache::retain_chats`: drop every scope (messages and hydration
flag) whose conversation is not in the given set. -/
def ContextCache.retain_chats (c : ContextCache) (chats : List Int) : ContextCache :=
  { c with
    entries := fun s => if chats.contains s.chat_id then c.entries s else []
    hydrated_scopes := fun s => chats.contains s.chat_id && c.hydrated_scopes s }

/-- `ContextCache::record_message`: no-op if the id is already present
anywhere in the scope's sequence, otherwise push to the back and trim to the
capacity. -/
def ContextCache.record_message (c : ContextCache) (scope : ContextScope)
    (mid : Int) (msg : ContextMessage) : ContextCache :=
  let chat_messages := c.entries scope
  if chat_messages.any (fun cached => cached.message_id == mid) then c
  else
    { c with
      entries := fun s =>
        if s = scope then trimFront c.per_chat_limit (chat_messages ++ [⟨mid, msg⟩])
        else c.entries s }

/-- `ContextCache::observe_update_message`: skip messages whose text trims to
empty, otherwise record the trimmed text under the resolved sender name. -/
def ContextCache.observe_update_message (c : ContextCache) (scope : ContextScope)
    (msg : MsgInput) : ContextCache :=
  let text := rustTrim msg.text
  if text.isEmpty then c
  else
    let sender_name := resolve_sender_name msg.outgoing msg.peer_name
    c.record_message scope msg.id ⟨sender_name, text⟩

/-- The loop body of `ContextCache::recent_before`: walk the reversed (newest
first) sequence, skip entries whose id equals the probe id, and stop as soon
as `count` messages are collected. -/
def recentLoop (mid : Int) (count : Nat) (acc : List ContextMessage) :
    List CachedContextMessage → List ContextMessage
  | [] => acc
  | cached :: rest =>
    if cached.message_id = mid then recentLoop mid count acc rest
    else if count ≤ acc.length + 1 then acc ++ [cached.message]
    else recentLoop mid count (acc ++ [cached.message]) rest

/-- `ContextCache::recent_before`: empty for `count = 0`; otherwise collect up
to `count` entries from the newest end, skipping the probe id, and reverse
back into chronological order. -/
def ContextCache.recent_before (c : ContextCache) (scope : ContextScope)
    (mid : Int) (count : Nat) : List ContextMessage :=
  if count = 0 then []
  else (recentLoop mid count [] ((c.entries scope).reverse)).reverse

/-- `ContextCache::should_backfill`. -/
def ContextCache.should_backfill (c : ContextCache) (scope : ContextScope)
    (count cached_count : Nat) : Bool :=
  decide (0 < count) && decide (cached_count < count) && !(c.hydrated_scopes scope)

/-- `ContextCache::mark_hydrated`. -/
def ContextCache.mark_hydrated (c : ContextCache) (scope : ContextScope) : ContextCache :=
  { c with hydrated_scopes := fun s => if s = scope then true else c.hydrated_scopes s }

/-! ## Dedupe cache (`DedupeCache` in `app.rs`)

The `HashMap<(i64, i32), Instant>` is embedded as an association list with
unique keys; `Instant` timestamps become `Nat` seconds and `Instant::elapsed`
becomes truncated subtraction from the current time. -/

/-- One `DedupeCache`. -/
structure DedupeCache where
  entries : List ((Int × Int) × Nat)
  ttl : Nat
deriving DecidableEq

/-- `DedupeCache::new`. -/
def DedupeCache.new (ttl : Nat) : DedupeCache := ⟨[], ttl⟩

/-- `DedupeCache::evict_expired`: retain entries with `seen_at.elapsed() <= ttl`. -/
def DedupeCache.evict_expired (d : DedupeCache) (now : Nat) : DedupeCache :=
  { d with entries := d.entries.filter (fun e => now - e.2 ≤ d.ttl) }

/-- Key membership in the entry map. -/
def DedupeCache.mem (d : DedupeCache) (chat_id mid : Int) : Bool :=
  d.entries.any (fun e => e.1 = (chat_id, mid))

/-- `DedupeCache::contains(&mut self)`: evict expired entries, then check the
key; the mutated cache is returned alongside the answer. -/
def DedupeCache.contains (d : DedupeCache) (chat_id mid : Int) (now : Nat) :
    Bool × DedupeCache :=
  let d2 := d.evict_expired now
  (d2.mem chat_id mid, d2)

/-- `DedupeCache::insert`: map-insert of the pair at the current time; the
association-list update replaces any entry at the same key and performs no
eviction. -/
def DedupeCache.insert (d : DedupeCache) (chat_id mid : Int) (now : Nat) : DedupeCache :=
  { d with
    entries := d.entries.filter (fun e => e.1 ≠ (chat_id, mid)) ++ [((chat_id, mid), now)] }

/-! ## UTF-16 truncation (`truncate_to_telegram_limit` in `app.rs`) -/

/-- `char::len_utf16`: one code unit below `U+10000`, two (a surrogate pair)
from `U+10000` up. -/
def char_len_utf16 (c : Char) : Nat := if c.toNat < 0x10000 then 1 else 2

/-- UTF-16 length of a character list. -/
def utf16Len (l : List Char) : Nat := (l.map char_len_utf16).sum

/-- The loop of `truncate_to_telegram_limit`: accumulate the UTF-16 count and
cut the string before the first character that would push it past the limit. -/
def truncGo (max : Nat) : Nat → List Char → List Char
  | _, [] => []
  | count, c :: rest =>
    let count2 := count + char_len_utf16 c
    if max < count2 then [] else c :: truncGo max count2 rest

/-- `truncate_to_telegram_limit` on the character list of the input string. -/
def truncate_to_telegram_limit (input : List Char) (max_utf16_units : Nat) : List Char :=
  truncGo max_utf16_units 0 input

/-- `truncate_to_telegram_limit` as a string-to-string function. -/
def truncate_string (s : String) (max_utf16_units : Nat) : String :=
  String.mk (truncate_to_telegram_limit s.data max_utf16_units)

/-! ## Rewrite pipeline (`process_message` in `app.rs`) -/

/-- The observer events emitted by the modelled code paths (`RewriteEvent` in
`app.rs`, restricted to the variants the embedded branch can produce). -/
inductive RewriteEvent where
  | MonitoredUpdate (chat_id : Int) (topic_root_id : Option Int) (message_id : Int)
      (outgoing : Bool)
  | MessageEdited (chat_id : Int) (message_id : Int)
deriving DecidableEq

/-- `RewriteConfig` from `config.rs`. -/
structure RewriteConfig where
  chats : List Int
  system_prompt : String
  context_messages : Nat
deriving DecidableEq

/-- `HotConfig` from `config.rs`. -/
structure HotConfig where
  openai_api_key : String
  openai_model : String
  rewrite : RewriteConfig
deriving DecidableEq

/-- Awaited outcomes of the three external calls a single `process_message`
run can make: `TelegramBot::fetch_context`, `OpenAiClient::rewrite`,
`TelegramBot::edit_message`. -/
structure ProcOracles where
  fetch_result : Except String (List ContextMessage)
  llm_result : Except String String
  edit_result : Except String Unit

/-- The state visible after a `process_message` run: the dedupe cache, the
context cache, and the events emitted through the hooks. -/
structure ProcResult where
  dedupe : DedupeCache
  context : ContextCache
  events : List RewriteEvent

/-- The rewrite text source: the test override is used verbatim when
configured, otherwise the LLM call's outcome. -/
def rewrite_result (rewrite_override : Option String) (o : ProcOracles) :
    Except String String :=
  match rewrite_override with
  | some t => Except.ok t
  | none => o.llm_result

/-- `process_message` from `app.rs`: ownership filter, dedupe check (which
lazily evicts), content filter, context assembly with at-most-once backfill,
rewrite call (or override), trim + UTF-16 truncation, no-op filters, and the
commit step that inserts into the dedupe cache and emits `MessageEdited` only
when the edit call succeeded. The LLM call's use of the assembled context is
abstracted by the `llm_result` oracle. -/
def process_message (rewrite : RewriteConfig) (rewrite_override : Option String)
    (o : ProcOracles) (now : Nat) (d : DedupeCache) (cc : ContextCache)
    (scope : ContextScope) (msg : MsgInput) : ProcResult :=
  if !msg.outgoing then ⟨d, cc, []⟩
  else
    let c1 := d.contains scope.chat_id msg.id now
    let d1 := c1.2
    if c1.1 then ⟨d1, cc, []⟩
    else
      let original := rustTrim msg.text
      if original.isEmpty then ⟨d1, cc, []⟩
      else
        let context0 := cc.recent_before scope msg.id rewrite.context_messages
        let backfill := cc.should_backfill scope rewrite.context_messages context0.length
        let cc1 := if backfill then cc.mark_hydrated scope else cc
        let _context : List ContextMessage :=
          if backfill then
            match o.fetch_result with
            | Except.ok fetched => fetched
            | Except.error _ => context0
          else context0
        match rewrite_result rewrite_override o with
        | Except.error _ => ⟨d1, cc1, []⟩
        | Except.ok text =>
          let rewritten := truncate_string (rustTrim text) TELEGRAM_MESSAGE_MAX_CHARS
          if rewritten.isEmpty then ⟨d1, cc1, []⟩
          else if rewritten = original then ⟨d1, cc1, []⟩
          else
            match o.edit_result with
            | Except.ok _ =>
              ⟨d1.insert scope.chat_id msg.id now, cc1,
               [RewriteEvent.MessageEdited scope.chat_id msg.id]⟩
            | Except.error _ => ⟨d1, cc1, []⟩

/-! ## Orchestrator: new-message branch and historical skip -/

/-- `is_historical_catch_up_message` from `app.rs`. -/
def is_historical_catch_up_message (message_unix startup_unix : Int) : Bool :=
  message_unix < startup_unix

/-- The orchestrator's branch for a new message in a monitored chat
(`run_rewrite_mode_with_shutdown_and_hooks` in `app.rs`): observe into the
context cache, then either stop (historical catch-up skip) or emit
`MonitoredUpdate` and run the pipeline. -/
def handle_monitored_new_message (skip_historical : Bool) (startup_unix : Int)
    (rewrite : RewriteConfig) (rewrite_override : Option String) (o : ProcOracles)
    (now : Nat) (d : DedupeCache) (cc : ContextCache) (scope : ContextScope)
    (msg : MsgInput) : ProcResult :=
  let cc1 := cc.observe_update_message scope msg
  if skip_historical && is_historical_catch_up_message msg.date startup_unix then
    ⟨d, cc1, []⟩
  else
    let r := process_message rewrite rewrite_override o now d cc1 scope msg
    ⟨r.dedupe, r.context,
     RewriteEvent.MonitoredUpdate scope.chat_id scope.topic_root_id msg.id msg.outgoing
       :: r.events⟩

/-! ## Hot-config reload (`spawn_config_watcher` and the reload arm in `app.rs`) -/

/-- The publish decision inside the watcher task: on a successful load,
`watch::Sender::send_if_modified` replaces the channel value and publishes iff
the fresh config differs by value; on a failed load nothing changes. Returns
the channel value and whether an update was published. -/
def reload_step (current : HotConfig) (load_result : Except String HotConfig) :
    HotConfig × Bool :=
  match load_result with
  | Except.ok new_cfg => if new_cfg ≠ current then (new_cfg, true) else (current, false)
  | Except.error _ => (current, false)

/-- The validation performed by `OpenAiClient::new` (`llm.rs`): reject a blank
api key or model. (Failure to build the HTTP client is environmental and not
modelled.) -/
def openai_client_new (api_key model : String) : Except String Unit :=
  if (rustTrim api_key).isEmpty then Except.error "openai api key must not be empty"
  else if (rustTrim model).isEmpty then Except.error "openai model must not be empty"
  else Except.ok ()

/-- `ActiveRewriteState` from `app.rs` (the LLM client is elided; its
construction is validated by `openai_client_new`). -/
structure ActiveRewriteState where
  hot_config : HotConfig
  monitored_chats : List Int
deriving DecidableEq

/-- `ActiveRewriteState::from_hot_config`. -/
def ActiveRewriteState.from_hot_config (hc : HotConfig) :
    Except String ActiveRewriteState :=
  match openai_client_new hc.openai_api_key hc.openai_model with
  | Except.ok _ => Except.ok ⟨hc, hc.rewrite.chats⟩
  | Except.error e => Except.error e

/-- The reload arm of the orchestrator loop: on a successfully constructed
state, reconcile both caches and swap; on failure keep the previous active
state and caches untouched. -/
def apply_hot_reload (active : ActiveRewriteState) (cc : ContextCache)
    (new_hot : HotConfig) : ActiveRewriteState × ContextCache :=
  match ActiveRewriteState.from_hot_config new_hot with
  | Except.ok new_active =>
    let cc1 := cc.retain_chats new_active.monitored_chats
    let cc2 := cc1.set_per_chat_limit new_active.hot_config.rewrite.context_messages
    (new_active, cc2)
  | Except.error _ => (active, cc)

/-! ## Supporting lemmas: UTF-16 truncation -/

/-- A character below the limit gap is kept verbatim by the truncation loop. -/
theorem truncGo_of_le (max : Nat) :
    ∀ (l : List Char) (count : Nat), count + utf16Len l ≤ max → truncGo max count l = l := by
  intro l
  induction l with
  | nil => intro count _; rfl
  | cons c rest ih =>
    intro count h
    have hlen : utf16Len (c :: rest) = char_len_utf16 c + utf16Len rest := by
      simp [utf16Len]
    have hc : ¬ max < count + char_len_utf16 c := by omega
    simp only [truncGo, hc, if_false]
    rw [ih (count + char_len_utf16 c) (by omega)]

/-- The truncation loop never exceeds the UTF-16 budget. -/
theorem truncGo_le (max : Nat) :
    ∀ (l : List Char) (count : Nat), count ≤ max →
      count + utf16Len (truncGo max count l) ≤ max := by
  intro l
  induction l with
  | nil => intro count h; simpa [utf16Len] using h
  | cons c rest ih =>
    intro count h
    by_cases hc : max < count + char_len_utf16 c
    · simp only [truncGo, hc, if_true]
      simpa [utf16Len] using h
    · simp only [truncGo, hc, if_false]
      have := ih (count + char_len_utf16 c) (by omega)
      have hlen : utf16Len (c :: truncGo max (count + char_len_utf16 c) rest)
          = char_len_utf16 c + utf16Len (truncGo max (count + char_len_utf16 c) rest) := by
        simp [utf16Len]
      omega

/-- The truncation loop returns a prefix of its input. -/
theorem truncGo_isPrefix (max : Nat) :
    ∀ (l : List Char) (count : Nat), truncGo max count l <+: l := by
  intro l
  induction l with
  | nil => intro count; exact ⟨[], rfl⟩
  | cons c rest ih =>
    intro count
    by_cases hc : max < count + char_len_utf16 c
    · simp only [truncGo, hc, if_true]
      exact ⟨c :: rest, rfl⟩
    · simp only [truncGo, hc, if_false]
      obtain ⟨tail2, htail⟩ := ih (count + char_len_utf16 c)
      exact ⟨tail2, by simp [htail]⟩

/-- A surrogate-pair character (2 UTF-16 units), used by the concrete cases. -/
def astral_char : Char := Char.ofNat 0x1F600

/-- C8: truncation counts length in UTF-16 code units (a surrogate pair counts
as 2) and never splits a surrogate pair: the result is a prefix of whole
characters whose UTF-16 length stays within the limit; any input whose total
UTF-16 length is within the limit is returned unchanged; for 4 consecutive
surrogate-pair characters and a limit of 6 units exactly 3 characters are
kept; for a limit of 3 units on (1-unit, pair, 1-unit) the trailing 1-unit
character is dropped rather than splitting the pair. -/
theorem truncate_counts_utf16_units :
    (∀ (l : List Char) (max : Nat), utf16Len l ≤ max →
      truncate_to_telegram_limit l max = l) ∧
    (∀ (l : List Char) (max : Nat), utf16Len (truncate_to_telegram_limit l max) ≤ max) ∧
    (∀ (l : List Char) (max : Nat), truncate_to_telegram_limit l max <+: l) ∧
    truncate_to_telegram_limit [astral_char, astral_char, astral_char, astral_char] 6
      = [astral_char, astral_char, astral_char] ∧
    truncate_to_telegram_limit [Char.ofNat 97, astral_char, Char.ofNat 97] 3
      = [Char.ofNat 97, astral_char] := by
  refine ⟨?_, ?_, ?_, by decide, by decide⟩
  · intro l max h
    exact truncGo_of_le max l 0 (by omega)
  · intro l max
    have := truncGo_le max l 0 (Nat.zero_le max)
    simpa [truncate_to_telegram_limit] using this
  · intro l max
    exact truncGo_isPrefix max l 0

/-- C8 witness: a concrete in-limit input is returned unchanged. -/
theorem truncate_counts_utf16_units_witness :
    utf16Len [Char.ofNat 104, Char.ofNat 105] ≤ 5 ∧
    truncate_to_telegram_limit [Char.ofNat 104, Char.ofNat 105] 5
      = [Char.ofNat 104, Char.ofNat 105] :=
  ⟨by decide, truncate_counts_utf16_units.1 [Char.ofNat 104, Char.ofNat 105] 5 (by decide)⟩

/-! ## Supporting lemmas: dedupe cache -/

/-- A dedupe-cache operation: an `insert` or a `contains` lookup (which evicts
as a side effect), each stamped with the current time. -/
inductive DOp where
  | ins (chat_id mid : Int) (t : Nat)
  | query (chat_id mid : Int) (t : Nat)
deriving DecidableEq

/-- Apply one operation to the cache state. -/
def DOp.apply (d : DedupeCache) : DOp → DedupeCache
  | DOp.ins c m t => d.insert c m t
  | DOp.query c m t => (d.contains c m t).2

/-- Run a history of operations left to right. -/
def runOps (d : DedupeCache) : List DOp → DedupeCache
  | [] => d
  | op :: rest => runOps (op.apply d) rest

/-- Every stored entry either predates the history or was put there by an
`insert` of exactly that pair at exactly that time. -/
theorem runOps_entry_mem (ops : List DOp) :
    ∀ (d : DedupeCache) (k : Int × Int) (t : Nat),
      (k, t) ∈ (runOps d ops).entries →
      (k, t) ∈ d.entries ∨ DOp.ins k.1 k.2 t ∈ ops := by
  induction ops with
  | nil => intro d k t h; exact Or.inl h
  | cons op rest ih =>
    intro d k t h
    rcases ih (op.apply d) k t h with h2 | h2
    · cases op with
      | ins c m t2 =>
        simp only [DOp.apply, DedupeCache.insert, List.mem_append, List.mem_filter,
          List.mem_singleton] at h2
        rcases h2 with h3 | h3
        · exact Or.inl h3.1
        · right
          have hk : k = (c, m) := congrArg Prod.fst h3
          have ht : t = t2 := congrArg Prod.snd h3
          subst ht
          rw [hk]
          exact List.mem_cons_self _ _
      | query c m t2 =>
        simp only [DOp.apply, DedupeCache.contains, DedupeCache.evict_expired,
          List.mem_filter] at h2
        exact Or.inl h2.1
    · exact Or.inr (List.mem_cons_of_mem _ h2)

/-- `contains` answers true exactly when some stored entry for the pair is
within the TTL window at the current time. -/
theorem dedupe_contains_iff (d : DedupeCache) (chat mid : Int) (now : Nat) :
    (d.contains chat mid now).1 = true ↔
      ∃ t, ((chat, mid), t) ∈ d.entries ∧ now - t ≤ d.ttl := by
  simp only [DedupeCache.contains, DedupeCache.mem, DedupeCache.evict_expired,
    List.any_eq_true, List.mem_filter, decide_eq_true_eq]
  constructor
  · rintro ⟨e, ⟨hmem, hfresh⟩, hkey⟩
    exact ⟨e.2, by rw [← hkey, Prod.mk.eta]; exact hmem, hfresh⟩
  · rintro ⟨t, hmem, hfresh⟩
    exact ⟨((chat, mid), t), ⟨hmem, hfresh⟩, rfl⟩

/-- Running a history never changes the TTL. -/
theorem runOps_ttl (ops : List DOp) :
    ∀ d : DedupeCache, (runOps d ops).ttl = d.ttl := by
  induction ops with
  | nil => intro d; rfl
  | cons op rest ih =>
    intro d
    rw [runOps, ih]
    cases op <;> rfl

/-- C2: immediately after a Dedupe Cache insert, `contains` is true for that
pair; once strictly more than the TTL has elapsed since the insert, `contains`
is false; and `contains` can answer true only for a pair actually inserted,
within the TTL, in the history that built the cache (no false positives). -/
theorem dedupe_insert_contains_ttl (d : DedupeCache) (chat mid : Int) (t now : Nat)
    (ops : List DOp) :
    (((d.insert chat mid t).contains chat mid t).1 = true) ∧
    (d.ttl < now - t → ((d.insert chat mid t).contains chat mid now).1 = false) ∧
    (((runOps (DedupeCache.new DEDUPE_TTL_SECONDS) ops).contains chat mid now).1 = true →
      ∃ t2, DOp.ins chat mid t2 ∈ ops ∧ now - t2 ≤ DEDUPE_TTL_SECONDS) ∧
    DEDUPE_TTL_SECONDS = 300 := by
  refine ⟨?_, ?_, ?_, rfl⟩
  · refine (dedupe_contains_iff _ chat mid t).mpr ⟨t, ?_, by omega⟩
    simp [DedupeCache.insert]
  · intro hold
    rw [← Bool.not_eq_true]
    intro htrue
    obtain ⟨t2, hmem, hfresh⟩ := (dedupe_contains_iff _ chat mid now).mp htrue
    simp only [DedupeCache.insert, List.mem_append, List.mem_filter,
      List.mem_singleton, decide_eq_true_eq] at hmem
    rcases hmem with ⟨_, hne⟩ | heq
    · exact hne rfl
    · have ht2 : t2 = t := congrArg Prod.snd heq
      subst ht2
      simp only [DedupeCache.insert] at hfresh
      omega
  · intro htrue
    obtain ⟨t2, hmem, hfresh⟩ := (dedupe_contains_iff _ chat mid now).mp htrue
    rcases runOps_entry_mem ops (DedupeCache.new DEDUPE_TTL_SECONDS) (chat, mid) t2 hmem with
      habs | hins
    · simp [DedupeCache.new] at habs
    · refine ⟨t2, hins, ?_⟩
      have httl := runOps_ttl ops (DedupeCache.new DEDUPE_TTL_SECONDS)
      have hnew : (DedupeCache.new DEDUPE_TTL_SECONDS).ttl = DEDUPE_TTL_SECONDS := rfl
      omega

/-- C2 witness: concrete insert at time 0; contained at time 0, gone at 301. -/
theorem dedupe_insert_contains_ttl_witness :
    (((DedupeCache.new 300).insert 1 5 0).contains 1 5 0).1 = true ∧
    ((DedupeCache.new 300).ttl < 301 - 0) ∧
    (((DedupeCache.new 300).insert 1 5 0).contains 1 5 301).1 = false :=
  ⟨(dedupe_insert_contains_ttl (DedupeCache.new 300) 1 5 0 301 []).1,
   by decide,
   (dedupe_insert_contains_ttl (DedupeCache.new 300) 1 5 0 301 []).2.1 (by decide)⟩

/-- C4 counterexample: the pair (1, 1) was inserted at time 0; a second insert
returning at time 400 leaves that entry — older than the 300-second TTL —
physically stored in the entry map, so `insert` does not evict. -/
theorem dedupe_insert_keeps_expired_entry :
    (((1 : Int), (1 : Int)), (0 : Nat)) ∈
        (((DedupeCache.new DEDUPE_TTL_SECONDS).insert 1 1 0).insert 2 2 400).entries ∧
    DEDUPE_TTL_SECONDS < 400 - 0 := by decide

/-- C4 (amended): lazy eviction happens on every lookup — after `contains`
returns, no entry older than the TTL remains physically stored — while
`insert` records the current time for the pair without evicting, so entries
older than the TTL may remain physically stored after an insert until the
next lookup (they are still treated as absent by `contains`). -/
theorem dedupe_lazy_eviction_on_lookup (d : DedupeCache) (chat mid : Int) (now : Nat) :
    (∀ e ∈ ((d.contains chat mid now).2).entries, now - e.2 ≤ d.ttl) ∧
    (d.insert chat mid now).entries
      = d.entries.filter (fun e => e.1 ≠ (chat, mid)) ++ [((chat, mid), now)] := by
  constructor
  · intro e he
    simp only [DedupeCache.contains, DedupeCache.evict_expired, List.mem_filter,
      decide_eq_true_eq] at he
    exact he.2
  · rfl

/-- C4 witness: the insert equation at a concrete cache. -/
theorem dedupe_lazy_eviction_on_lookup_witness :
    ((DedupeCache.new 300).insert 1 1 0).entries
      = (DedupeCache.new 300).entries.filter (fun e => e.1 ≠ (1, 1)) ++ [((1, 1), 0)] :=
  (dedupe_lazy_eviction_on_lookup (DedupeCache.new 300) 1 1 0).2

/-! ## Supporting lemmas: `recent_before` -/

/-- Closed form of the `recent_before` loop: it appends to the accumulator the
first `count - acc.length` non-matching entries of the remaining (already
reversed) sequence. -/
theorem recentLoop_eq (mid : Int) (count : Nat) :
    ∀ (l : List CachedContextMessage) (acc : List ContextMessage), acc.length < count →
      recentLoop mid count acc l =
        acc ++ ((l.filter (fun e => e.message_id ≠ mid)).take (count - acc.length)).map
          (fun e => e.message) := by
  intro l
  induction l with
  | nil => intro acc _; simp [recentLoop]
  | cons cached rest ih =>
    intro acc h
    by_cases hid : cached.message_id = mid
    · rw [recentLoop]
      simp only [hid, if_true]
      rw [ih acc h]
      simp [List.filter_cons, hid]
    · by_cases hstop : count ≤ acc.length + 1
      · have hc : count - acc.length = 1 := by omega
        rw [recentLoop]
        simp only [hid, if_false, hstop, if_true]
        simp [List.filter_cons, hid, hc]
      · have h2 : (acc ++ [cached.message]).length < count := by
          simp
          omega
        rw [recentLoop]
        simp only [hid, if_false, hstop, if_true]
        rw [ih (acc ++ [cached.message]) h2]
        have hc : count - acc.length = (count - ((acc ++ [cached.message]).length)) + 1 := by
          simp
          omega
        rw [hc]
        simp [List.filter_cons, hid, List.take_succ_cons]

/-- Closed form of `recent_before`: the last `n` entries of the scope's
sequence with the probe id filtered out, oldest first. -/
theorem recent_before_eq (c : ContextCache) (s : ContextScope) (mid : Int) (n : Nat) :
    c.recent_before s mid n =
      ((((c.entries s).reverse.filter (fun e => e.message_id ≠ mid)).take n).map
        (fun e => e.message)).reverse := by
  by_cases hn : n = 0
  · simp [ContextCache.recent_before, hn]
  · rw [ContextCache.recent_before]
    simp only [hn, if_false]
    rw [recentLoop_eq mid n ((c.entries s).reverse) [] (by simp; omega)]
    simp

/-- C3 (amended): `recent_before` returns, in chronological (oldest-first)
order, up to `count` of the most recent cached entries whose id differs from
`message_id` — regardless of their position relative to the entry carrying
that id in cache order — never includes an entry whose id equals
`message_id`, returns at most `count` entries, and returns the empty sequence
when `count = 0`. -/
theorem recent_before_spec (c : ContextCache) (s : ContextScope) (mid : Int) (n : Nat) :
    c.recent_before s mid n =
      ((((c.entries s).reverse.filter (fun e => e.message_id ≠ mid)).take n).map
        (fun e => e.message)).reverse ∧
    (c.recent_before s mid n).length ≤ n ∧
    (n = 0 → c.recent_before s mid n = []) ∧
    (∀ m ∈ c.recent_before s mid n,
      ∃ e ∈ c.entries s, e.message_id ≠ mid ∧ e.message = m) := by
  refine ⟨recent_before_eq c s mid n, ?_, ?_, ?_⟩
  · rw [recent_before_eq]
    simp only [List.length_reverse, List.length_map]
    exact List.length_take_le n _
  · intro h
    simp [ContextCache.recent_before, h]
  · intro m hm
    rw [recent_before_eq] at hm
    simp only [List.mem_reverse, List.mem_map] at hm
    obtain ⟨e, he, hem⟩ := hm
    have he2 := List.take_subset _ _ he
    simp only [List.mem_filter, List.mem_reverse, decide_eq_true_eq] at he2
    exact ⟨e, he2.1, he2.2, hem⟩

/-- C3 witness: the `count = 0` case at a concrete cache. -/
theorem recent_before_spec_witness :
    (ContextCache.new 10).recent_before ⟨1, none⟩ 1 0 = [] :=
  (recent_before_spec (ContextCache.new 10) ⟨1, none⟩ 1 0).2.2.1 rfl

/-- Two messages recorded in cache order: id 1 first, then id 2. -/
def recent_before_cex_cache : ContextCache :=
  ((ContextCache.new 10).record_message ⟨1, none⟩ 1 ⟨"Alice", "one"⟩).record_message
    ⟨1, none⟩ 2 ⟨"Bob", "two"⟩

/-- C3 counterexample: probing with id 1 — the oldest entry — returns the
message of the entry with id 2, even though no cached entry strictly precedes
the entry with id 1 in cache order (the prefix of the scope's sequence before
that entry is empty); so returned entries are not restricted to those
"strictly preceding the given message_id by cache order". -/
theorem recent_before_includes_following_entry :
    recent_before_cex_cache.recent_before ⟨1, none⟩ 1 5 = [⟨"Bob", "two"⟩] ∧
    (recent_before_cex_cache.entries ⟨1, none⟩).takeWhile
        (fun e => e.message_id ≠ 1) = [] ∧
    ¬ (∀ m ∈ recent_before_cex_cache.recent_before ⟨1, none⟩ 1 5,
        m ∈ ((recent_before_cex_cache.entries ⟨1, none⟩).takeWhile
          (fun e => e.message_id ≠ 1)).map (fun e => e.message)) := by decide

/-! ## Supporting lemmas: context-cache id uniqueness -/

def scopeIds (c : ContextCache) (s : ContextScope) : List Int :=
  (c.entries s).map (fun e => e.message_id)

inductive ContextCacheReachable : ContextCache → Prop
  | new (n : Nat) : ContextCacheReachable (ContextCache.new n)
  | set_limit (c : ContextCache) (n : Nat) :
      ContextCacheReachable c → ContextCacheReachable (c.set_per_chat_limit n)
  | retain (c : ContextCache) (chats : List Int) :
      ContextCacheReachable c → ContextCacheReachable (c.retain_chats chats)
  | record (c : ContextCache) (s : ContextScope) (mid : Int) (m : ContextMessage) :
      ContextCacheReachable c → ContextCacheReachable (c.record_message s mid m)
  | observe (c : ContextCache) (s : ContextScope) (msg : MsgInput) :
      ContextCacheReachable c → ContextCacheReachable (c.observe_update_message s msg)
  | mark (c : ContextCache) (s : ContextScope) :
      ContextCacheReachable c → ContextCacheReachable (c.mark_hydrated s)

theorem trimFront_sublist (limit : Nat) (l : List α) : (trimFront limit l).Sublist l :=
  List.drop_sublist _ _

theorem record_message_preserves_nodup {c : ContextCache}
    (h : ∀ s, (scopeIds c s).Nodup) (scope : ContextScope) (mid : Int)
    (m : ContextMessage) :
    ∀ s, (scopeIds (c.record_message scope mid m) s).Nodup := by
  intro s
  by_cases hdup : (c.entries scope).any (fun cached => cached.message_id == mid) = true
  · simpa [ContextCache.record_message, hdup] using h s
  · by_cases hs : s = scope
    · subst hs
      have hmem : mid ∉ scopeIds c s := by
        intro hmem
        simp only [scopeIds, List.mem_map] at hmem
        obtain ⟨e, he, hei⟩ := hmem
        exact hdup (List.any_eq_true.mpr ⟨e, he, by simp [hei]⟩)
      have hids : scopeIds (c.record_message s mid m) s
          = (trimFront c.per_chat_limit
              (c.entries s ++ [CachedContextMessage.mk mid m])).map
              (fun e => e.message_id) := by
        simp [scopeIds, ContextCache.record_message, hdup]
      rw [hids]
      have hnodup_push : ((c.entries s ++ [CachedContextMessage.mk mid m]).map
          (fun e => e.message_id)).Nodup := by
        rw [List.map_append, List.map_singleton]
        have hperm : ((c.entries s).map (fun e => e.message_id) ++ [mid]).Perm
            (mid :: (c.entries s).map (fun e => e.message_id)) :=
          List.perm_append_singleton _ _
        refine hperm.nodup_iff.mpr ?_
        exact List.nodup_cons.mpr ⟨hmem, h s⟩
      exact hnodup_push.sublist ((trimFront_sublist _ _).map _)
    · have hids : scopeIds (c.record_message scope mid m) s = scopeIds c s := by
        simp [ContextCache.record_message, hdup, scopeIds, hs]
      rw [hids]
      exact h s

theorem reachable_scope_ids_nodup {c : ContextCache} (h : ContextCacheReachable c) :
    ∀ s, (scopeIds c s).Nodup := by
  induction h with
  | new n => intro s; simp [scopeIds, ContextCache.new]
  | set_limit c n _ ih =>
    intro s
    have hids : scopeIds (c.set_per_chat_limit n) s
        = (trimFront n (c.entries s)).map (fun e => e.message_id) := rfl
    rw [hids]
    exact (ih s).sublist ((trimFront_sublist _ _).map _)
  | retain c chats _ ih =>
    intro s
    by_cases hc : s.chat_id ∈ chats
    · simpa [scopeIds, ContextCache.retain_chats, hc] using ih s
    · simp [scopeIds, ContextCache.retain_chats, hc]
  | record c scope mid m _ ih => exact record_message_preserves_nodup ih scope mid m
  | observe c scope msg _ ih =>
    by_cases htext : (rustTrim msg.text).isEmpty = true
    · simpa [ContextCache.observe_update_message, htext] using ih
    · intro s
      have hobs : c.observe_update_message scope msg
          = c.record_message scope msg.id
              ⟨resolve_sender_name msg.outgoing msg.peer_name, rustTrim msg.text⟩ := by
        simp [ContextCache.observe_update_message, htext]
      rw [hobs]
      exact record_message_preserves_nodup ih scope msg.id _ s
  | mark c scope _ ih =>
    intro s
    simpa [scopeIds, ContextCache.mark_hydrated] using ih s

/-- C5: within each scope the cached message_id values are unique in every
reachable cache state; observing a message whose id is already present
anywhere in the scope's sequence leaves the cache unchanged (no duplicate
insert, no reorder, unchanged length), as does observing a message whose text
is empty after trimming. -/
theorem context_scope_ids_unique (c : ContextCache) (s : ContextScope) (msg : MsgInput) :
    (ContextCacheReachable c → ∀ s2, (scopeIds c s2).Nodup) ∧
    ((c.entries s).any (fun cached => cached.message_id == msg.id) = true →
      c.observe_update_message s msg = c) ∧
    ((rustTrim msg.text).isEmpty = true → c.observe_update_message s msg = c) := by
  refine ⟨fun h => reachable_scope_ids_nodup h, ?_, ?_⟩
  · intro hdup
    by_cases htext : (rustTrim msg.text).isEmpty = true
    · simp [ContextCache.observe_update_message, htext]
    · simp [ContextCache.observe_update_message, htext, ContextCache.record_message, hdup]
  · intro htext
    simp [ContextCache.observe_update_message, htext]

/-- A concrete cache holding message id 7 in scope (1, no topic). -/
def c5_cache : ContextCache :=
  (ContextCache.new 10).record_message ⟨1, none⟩ 7 ⟨"Me", "hi"⟩

/-- A concrete re-observation of id 7 with different text. -/
def c5_msg : MsgInput := ⟨7, "hi again", true, none, 0⟩

/-- C5 witness: re-observing id 7 at the concrete cache is a no-op. -/
theorem context_scope_ids_unique_witness :
    ((c5_cache.entries ⟨1, none⟩).any
        (fun cached => cached.message_id == c5_msg.id) = true) ∧
    c5_cache.observe_update_message ⟨1, none⟩ c5_msg = c5_cache :=
  ⟨by decide, (context_scope_ids_unique c5_cache ⟨1, none⟩ c5_msg).2.1 (by decide)⟩

/-! ## Scope isolation and backfill contract -/

theorem record_message_entries_other {c : ContextCache} {sA sB : ContextScope}
    (hne : sB ≠ sA) (mid : Int) (m : ContextMessage) :
    (c.record_message sA mid m).entries sB = c.entries sB := by
  rw [ContextCache.record_message]
  split
  · rfl
  · simp [hne]

theorem observe_entries_other {c : ContextCache} {sA sB : ContextScope}
    (hne : sB ≠ sA) (msg : MsgInput) :
    (c.observe_update_message sA msg).entries sB = c.entries sB := by
  rw [ContextCache.observe_update_message]
  split
  · rfl
  · exact record_message_entries_other hne _ _

theorem record_message_hydrated {c : ContextCache} (sA : ContextScope) (mid : Int)
    (m : ContextMessage) :
    (c.record_message sA mid m).hydrated_scopes = c.hydrated_scopes := by
  rw [ContextCache.record_message]
  split <;> rfl

theorem observe_hydrated {c : ContextCache} (sA : ContextScope) (msg : MsgInput) :
    (c.observe_update_message sA msg).hydrated_scopes = c.hydrated_scopes := by
  rw [ContextCache.observe_update_message]
  split
  · rfl
  · exact record_message_hydrated _ _ _

theorem recent_before_entries_congr {c1 c2 : ContextCache} {s : ContextScope}
    (h : c1.entries s = c2.entries s) (mid : Int) (n : Nat) :
    c1.recent_before s mid n = c2.recent_before s mid n := by
  rw [ContextCache.recent_before, ContextCache.recent_before, h]

/-- C6: two scopes with the same conversation but different topic roots are
fully isolated — a message recorded or observed in one scope, and hydration
state marked in one scope, are invisible to `recent_before` and
`should_backfill` on the other scope. -/
theorem context_scope_isolation (c : ContextCache) (sA sB : ContextScope)
    (mid mid2 : Int) (m : ContextMessage) (msg : MsgInput) (n k : Nat)
    (h_chat : sA.chat_id = sB.chat_id) (h_topic : sA.topic_root_id ≠ sB.topic_root_id) :
    ((c.record_message sA mid m).recent_before sB mid2 n = c.recent_before sB mid2 n) ∧
    ((c.observe_update_message sA msg).recent_before sB mid2 n
      = c.recent_before sB mid2 n) ∧
    ((c.mark_hydrated sA).recent_before sB mid2 n = c.recent_before sB mid2 n) ∧
    ((c.mark_hydrated sA).should_backfill sB n k = c.should_backfill sB n k) ∧
    ((c.record_message sA mid m).should_backfill sB n k = c.should_backfill sB n k) ∧
    ((c.observe_update_message sA msg).should_backfill sB n k
      = c.should_backfill sB n k) := by
  have hne : sB ≠ sA := by
    intro hcontra
    exact h_topic (by rw [hcontra])
  refine ⟨?_, ?_, ?_, ?_, ?_, ?_⟩
  · exact recent_before_entries_congr (record_message_entries_other hne mid m) mid2 n
  · exact recent_before_entries_congr (observe_entries_other hne msg) mid2 n
  · exact recent_before_entries_congr rfl mid2 n
  · simp [ContextCache.should_backfill, ContextCache.mark_hydrated, hne]
  · simp [ContextCache.should_backfill, record_message_hydrated]
  · simp [ContextCache.should_backfill, observe_hydrated]

/-- C6 witness: isolation of two concrete topics of the same chat. -/
theorem context_scope_isolation_witness :
    (((ContextCache.new 10).record_message ⟨1, some 1⟩ 3 ⟨"Me", "x"⟩).recent_before
        ⟨1, some 2⟩ 9 5
      = (ContextCache.new 10).recent_before ⟨1, some 2⟩ 9 5) ∧
    (((ContextCache.new 10).mark_hydrated ⟨1, some 1⟩).should_backfill ⟨1, some 2⟩ 5 0
      = (ContextCache.new 10).should_backfill ⟨1, some 2⟩ 5 0) := by
  have h := context_scope_isolation (ContextCache.new 10) ⟨1, some 1⟩ ⟨1, some 2⟩ 3 9
    ⟨"Me", "x"⟩ ⟨3, "x", true, none, 0⟩ 5 0 (by decide) (by decide)
  exact ⟨h.1, h.2.2.2.1⟩

/-- C7: `should_backfill` is true iff the requested count is positive, the
cache holds fewer than requested, and the scope is not marked hydrated;
`mark_hydrated` is idempotent; after `mark_hydrated` the scope never
backfills — including after a `retain_chats` that keeps its conversation —
until a `retain_chats` that drops its conversation clears the flag, after
which backfilling is again governed by the counts alone. -/
theorem should_backfill_contract (c : ContextCache) (s : ContextScope) (n k : Nat)
    (chats : List Int) :
    (c.should_backfill s n k = true ↔ 0 < n ∧ k < n ∧ c.hydrated_scopes s = false) ∧
    ((c.mark_hydrated s).mark_hydrated s = c.mark_hydrated s) ∧
    ((c.mark_hydrated s).should_backfill s n k = false) ∧
    (chats.contains s.chat_id = true →
      ((c.mark_hydrated s).retain_chats chats).should_backfill s n k = false) ∧
    (chats.contains s.chat_id = false →
      ((c.mark_hydrated s).retain_chats chats).should_backfill s n k
        = (decide (0 < n) && decide (k < n))) := by
  refine ⟨?_, ?_, ?_, ?_, ?_⟩
  · simp only [ContextCache.should_backfill, Bool.and_eq_true, decide_eq_true_eq,
      Bool.not_eq_true', and_assoc]
  · cases c with
    | mk lim ent hyd =>
      simp only [ContextCache.mark_hydrated]
      congr 1
      funext s2
      by_cases hs : s2 = s <;> simp [hs]
  · simp [ContextCache.should_backfill, ContextCache.mark_hydrated]
  · intro hc
    have hmem : s.chat_id ∈ chats := by simpa using hc
    simp [ContextCache.should_backfill, ContextCache.retain_chats,
      ContextCache.mark_hydrated, hmem]
  · intro hc
    have hmem : s.chat_id ∉ chats := by simpa using hc
    simp [ContextCache.should_backfill, ContextCache.retain_chats,
      ContextCache.mark_hydrated, hmem]

/-- C7 witness: the contract at a concrete cache and scope. -/
theorem should_backfill_contract_witness :
    ((ContextCache.new 10).should_backfill ⟨1, none⟩ 5 0 = true) ∧
    (((ContextCache.new 10).mark_hydrated ⟨1, none⟩).should_backfill ⟨1, none⟩ 5 0
      = false) ∧
    ((((ContextCache.new 10).mark_hydrated ⟨1, none⟩).retain_chats []).should_backfill
        ⟨1, none⟩ 5 0 = (decide ((0:Nat) < 5) && decide ((0:Nat) < 5))) := by
  have h := should_backfill_contract (ContextCache.new 10) ⟨1, none⟩ 5 0 []
  exact ⟨h.1.mpr ⟨by decide, by decide, rfl⟩, h.2.2.1, h.2.2.2.2 (by decide)⟩

/-- C9: a hot-config reload publishes a new policy iff loading and validation
of the configuration file succeed and the fresh policy differs by value from
the current one; an equal policy publishes nothing; a failed load leaves the
current policy untouched; and a reload whose active-state construction fails
leaves the active policy and the caches untouched. -/
theorem hot_reload_publish (current : HotConfig) (load_result : Except String HotConfig)
    (active : ActiveRewriteState) (cc : ContextCache) (hot2 : HotConfig) (e : String) :
    ((reload_step current load_result).2 = true ↔
      ∃ cfg, load_result = Except.ok cfg ∧ cfg ≠ current) ∧
    (reload_step current (Except.ok current) = (current, false)) ∧
    (reload_step current (Except.error e) = (current, false)) ∧
    ((reload_step current load_result).2 = false →
      (reload_step current load_result).1 = current) ∧
    (ActiveRewriteState.from_hot_config hot2 = Except.error e →
      apply_hot_reload active cc hot2 = (active, cc)) := by
  refine ⟨?_, by simp [reload_step], rfl, ?_, ?_⟩
  · cases load_result with
    | ok cfg =>
      by_cases hc : cfg = current
      · simp [reload_step, hc]
      · simp [reload_step, hc]
    | error err => simp [reload_step]
  · cases load_result with
    | ok cfg =>
      by_cases hc : cfg = current
      · simp [reload_step, hc]
      · simp [reload_step, hc]
    | error err => intro _; rfl
  · intro hfail
    rw [apply_hot_reload, hfail]

/-- Hot config whose api key is blank: its active-state construction fails. -/
def c9_bad_hot : HotConfig := ⟨" ", "gpt", ⟨[1], "p", 2⟩⟩

/-- Hot config with a valid key, used as the current active policy. -/
def c9_good_hot : HotConfig := ⟨"k", "gpt", ⟨[1], "p", 2⟩⟩

/-- C9 witness: a failed construction leaves the active state and cache
untouched, and reloading an unchanged policy publishes nothing. -/
theorem hot_reload_publish_witness :
    (ActiveRewriteState.from_hot_config c9_bad_hot
      = Except.error "openai api key must not be empty") ∧
    (apply_hot_reload ⟨c9_good_hot, [1]⟩ (ContextCache.new 2) c9_bad_hot
      = (⟨c9_good_hot, [1]⟩, ContextCache.new 2)) ∧
    (reload_step c9_good_hot (Except.ok c9_good_hot) = (c9_good_hot, false)) := by
  have h := hot_reload_publish c9_good_hot (Except.ok c9_good_hot)
    ⟨c9_good_hot, [1]⟩ (ContextCache.new 2) c9_bad_hot "openai api key must not be empty"
  exact ⟨rfl, h.2.2.2.2 rfl, h.2.1⟩

/-! ## Commit step and historical skip -/

/-- After `insert`, the inserted pair is a member of the entry map. -/
theorem dedupe_mem_insert (d : DedupeCache) (chat mid : Int) (now : Nat) :
    (d.insert chat mid now).mem chat mid = true := by
  simp [DedupeCache.insert, DedupeCache.mem]

/-- C1: in the pipeline's commit step, for every message that reaches it
(outgoing, not deduped, non-empty original text, successful rewrite with a
non-empty, changed result): if the external edit call succeeds, the
(conversation, message) pair is inserted into the Dedupe Cache and a
`MessageEdited` event is emitted; if the edit call fails, no dedupe entry is
inserted and no event is emitted — the dedupe state is exactly the state the
run would have left had the edit never been attempted (just the lazy eviction
performed by the dedupe check). -/
theorem process_message_commit (rewrite : RewriteConfig) (rewrite_override : Option String)
    (o : ProcOracles) (now : Nat) (d : DedupeCache) (cc : ContextCache)
    (scope : ContextScope) (msg : MsgInput) (t : String)
    (h_out : msg.outgoing = true)
    (h_dup : (d.evict_expired now).mem scope.chat_id msg.id = false)
    (h_text : (rustTrim msg.text).isEmpty = false)
    (h_rw : rewrite_result rewrite_override o = Except.ok t)
    (h_ne : (truncate_string (rustTrim t) TELEGRAM_MESSAGE_MAX_CHARS).isEmpty = false)
    (h_diff : truncate_string (rustTrim t) TELEGRAM_MESSAGE_MAX_CHARS ≠ rustTrim msg.text) :
    (o.edit_result = Except.ok () →
      (process_message rewrite rewrite_override o now d cc scope msg).dedupe
          = (d.evict_expired now).insert scope.chat_id msg.id now ∧
      (process_message rewrite rewrite_override o now d cc scope msg).dedupe.mem
          scope.chat_id msg.id = true ∧
      (process_message rewrite rewrite_override o now d cc scope msg).events
          = [RewriteEvent.MessageEdited scope.chat_id msg.id]) ∧
    (∀ err, o.edit_result = Except.error err →
      (process_message rewrite rewrite_override o now d cc scope msg).dedupe
          = d.evict_expired now ∧
      (process_message rewrite rewrite_override o now d cc scope msg).events = []) := by
  constructor
  · intro hedit
    refine ⟨?_, ?_, ?_⟩ <;>
      simp [process_message, DedupeCache.contains, h_out, h_dup, h_text, h_rw, h_ne,
        hedit, h_diff, dedupe_mem_insert]
  · intro err hedit
    refine ⟨?_, ?_⟩ <;>
      simp [process_message, DedupeCache.contains, h_out, h_dup, h_text, h_rw, h_ne,
        hedit, h_diff]

/-- Oracles for the C1 witness: all three external calls succeed. -/
def c1_oracles : ProcOracles := ⟨Except.ok [], Except.ok "[x]", Except.ok ()⟩

/-- A concrete outgoing message for the C1 witness. -/
def c1_msg : MsgInput := ⟨5, "hello", true, none, 0⟩

/-- C1 witness: a successful edit at concrete inputs inserts the dedupe pair
and emits exactly one `MessageEdited` event. -/
theorem process_message_commit_witness :
    (process_message ⟨[1], "p", 2⟩ (some "[x]") c1_oracles 0 (DedupeCache.new 300)
        (ContextCache.new 2) ⟨1, none⟩ c1_msg).dedupe.mem 1 5 = true ∧
    (process_message ⟨[1], "p", 2⟩ (some "[x]") c1_oracles 0 (DedupeCache.new 300)
        (ContextCache.new 2) ⟨1, none⟩ c1_msg).events
      = [RewriteEvent.MessageEdited 1 5] := by
  have h := process_message_commit ⟨[1], "p", 2⟩ (some "[x]") c1_oracles 0
    (DedupeCache.new 300) (ContextCache.new 2) ⟨1, none⟩ c1_msg "[x]"
    (by decide) (by decide) (by decide) rfl (by decide) (by decide)
  obtain ⟨h1, _⟩ := h
  obtain ⟨_, h2, h3⟩ := h1 rfl
  exact ⟨h2, h3⟩

/-- C10: with the historical skip enabled (the default runtime option), a
monitored message whose timestamp is strictly before the startup timestamp is
still observed into the Context Cache but never passed to the rewrite
pipeline — the dedupe cache is untouched and no event (in particular no edit)
is produced; a message dated at or after startup is not skipped by this
filter and proceeds to the pipeline. -/
theorem historical_catch_up_skip (startup_unix : Int) (rewrite : RewriteConfig)
    (rewrite_override : Option String) (o : ProcOracles) (now : Nat) (d : DedupeCache)
    (cc : ContextCache) (scope : ContextScope) (msg : MsgInput) :
    (msg.date < startup_unix →
      handle_monitored_new_message true startup_unix rewrite rewrite_override o now d cc
          scope msg
        = ⟨d, cc.observe_update_message scope msg, []⟩) ∧
    (startup_unix ≤ msg.date →
      handle_monitored_new_message true startup_unix rewrite rewrite_override o now d cc
          scope msg
        = ⟨(process_message rewrite rewrite_override o now d
              (cc.observe_update_message scope msg) scope msg).dedupe,
           (process_message rewrite rewrite_override o now d
              (cc.observe_update_message scope msg) scope msg).context,
           RewriteEvent.MonitoredUpdate scope.chat_id scope.topic_root_id msg.id
               msg.outgoing
             :: (process_message rewrite rewrite_override o now d
                  (cc.observe_update_message scope msg) scope msg).events⟩) := by
  constructor
  · intro h
    simp [handle_monitored_new_message, is_historical_catch_up_message, h]
  · intro h
    have hnot : ¬ (msg.date < startup_unix) := not_lt.mpr h
    simp [handle_monitored_new_message, is_historical_catch_up_message, hnot]

/-- C10 witness: a concrete pre-startup message (dated 50, startup 100) is
observed into the cache but produces no pipeline activity. -/
theorem historical_catch_up_skip_witness :
    handle_monitored_new_message true 100 ⟨[1], "p", 2⟩ none
        ⟨Except.ok [], Except.ok "y", Except.ok ()⟩ 0 (DedupeCache.new 300)
        (ContextCache.new 2) ⟨1, none⟩ ⟨5, "old", true, none, 50⟩
      = ⟨DedupeCache.new 300,
         (ContextCache.new 2).observe_update_message ⟨1, none⟩ ⟨5, "old", true, none, 50⟩,
         []⟩ :=
  (historical_catch_up_skip 100 ⟨[1], "p", 2⟩ none
    ⟨Except.ok [], Except.ok "y", Except.ok ()⟩ 0 (DedupeCache.new 300)
    (ContextCache.new 2) ⟨1, none⟩ ⟨5, "old", true, none, 50⟩).1 (by decide)
